import Mathlib

/-
  Verification development for the read-article repository.

  The repository is a Next.js article reader: an extraction endpoint
  (src/app/api/extract/route.ts and a second variant of it) turns a URL into
  { title, content, excerpt }, and the page component (src/app/page.tsx, in a
  sentence-granularity variant and a word-granularity variant) segments the
  content, drives the Web Speech API through it, and highlights and scrolls to
  the currently spoken unit.

  Everything below is a shallow embedding of that TypeScript source:
  * strings are modelled as `List Char` (JS strings of the relevant inputs);
  * the React state hooks (isPlaying, isPaused, currentSentenceIndex, ...) and
    the SpeechSynthesis singleton (speaking, paused, the set of submitted
    utterances whose terminal end/error event has not yet been delivered) are
    collected into explicit state records;
  * asynchronous callbacks (utterance onend/onerror/onstart, setTimeout ticks)
    are delivered one at a time by explicit step functions, matching the
    single-threaded event-loop model of the browser.
-/

namespace ReadArticle

/-! ## Segmenter, sentence granularity

Embeds the sentence-splitting logic of `handleSubmit` (page.tsx, sentence
variant):

    data.content
      .split(/([.!?]+)/)
      .reduce((acc, part, index) => {
        if (index % 2 === 0) { if (part.trim()) acc.push(part.trim()); }
        else { if (acc.length > 0) acc[acc.length - 1] += part; }
        return acc;
      }, [])
      .filter(sentence => sentence.trim().length > 0)
-/

/-- The terminal punctuation characters of the splitting regex `[.!?]+`. -/
def isTermChar (c : Char) : Bool := c == '.' || c == '!' || c == '?'

/-- JS `String.prototype.trim` over `List Char`: drop whitespace from both
ends. -/
def trimL (l : List Char) : List Char :=
  ((l.dropWhile Char.isWhitespace).reverse.dropWhile Char.isWhitespace).reverse

/-- Worker for JS `content.split(/([.!?]+)/)`. `cur` is the current part
accumulated in reverse, `inP` tells whether `cur` is a punctuation run
(a captured separator) or an ordinary text part. JS split with a capturing
group returns the alternating list text, separator, text, separator, ...,
text — beginning and ending with a (possibly empty) text part. -/
def splitGo : List Char → List Char → Bool → List (List Char)
  | [], cur, inP => if inP then [cur.reverse, []] else [cur.reverse]
  | c :: cs, cur, inP =>
    if isTermChar c == inP then splitGo cs (c :: cur) inP
    else cur.reverse :: splitGo cs [c] (isTermChar c)

/-- JS `content.split(/([.!?]+)/)`. -/
def splitParts (content : List Char) : List (List Char) := splitGo content [] false

/-- `acc[acc.length - 1] += part` on the reversed accumulator: append the
punctuation run to the most recently pushed sentence, if any. -/
def appendToHead (acc : List (List Char)) (p : List Char) : List (List Char) :=
  match acc with
  | [] => []
  | h :: tl => (h ++ p) :: tl

/-- The `reduce` of `handleSubmit`: even-indexed parts are sentence text,
pushed trimmed when nonempty; odd-indexed parts are punctuation runs, appended
to the most recently pushed sentence (if any).  The accumulator is kept in
reverse order (JS pushes to the back and mutates the last element; here we
cons to the front and mutate the head, reversing at the end). -/
def buildGo : List (List Char) → Nat → List (List Char) → List (List Char)
  | [], _, acc => acc
  | p :: ps, i, acc =>
    if i % 2 == 0 then
      buildGo ps (i + 1) (if (trimL p).isEmpty then acc else trimL p :: acc)
    else
      buildGo ps (i + 1) (appendToHead acc p)

/-- The full sentence segmentation of `handleSubmit` (split, reduce, filter). -/
def segmentSentences (content : List Char) : List (List Char) :=
  ((buildGo (splitParts content) 0 []).reverse).filter (fun u => !(trimL u).isEmpty)

/-! ## Extraction endpoint content cleaning

Embeds the text post-processing of the two extraction route variants.

Variant A (src/app/api/extract/route.ts):

    const cleanContent = article.textContent
      .replace(/\s+/g, ' ')          // Replace multiple whitespace with single space
      .replace(/\n\s*\n/g, '\n\n')   // Keep paragraph breaks but clean up extra newlines
      .trim();

Variant B (the unnamed route variant): collects the trimmed text of the
paragraph-like elements and joins them:

    const formattedContent = paragraphs.join('\n\n');
-/

/-- JS `.replace(/\s+/g, ' ')`: each maximal run of whitespace becomes one
space.  `prev` records whether the previous input character was whitespace
(i.e. whether we are inside a run that already emitted its space). -/
def collapseWsGo : Bool → List Char → List Char
  | _, [] => []
  | prev, c :: cs =>
    if c.isWhitespace then
      if prev then collapseWsGo true cs else ' ' :: collapseWsGo true cs
    else c :: collapseWsGo false cs

/-- JS `.replace(/\n\s*\n/g, '\n\n')`, given the maximal whitespace run `ws`
following a `'\n'`: the suffix of `ws` after its last `'\n'`, or `none` when
`ws` contains no `'\n'` (no match at this position). -/
def afterLastNewline (ws : List Char) : Option (List Char) :=
  match ws.reverse.dropWhile (fun c => !(c == '\n')) with
  | [] => none
  | _ :: _ => some ((ws.reverse.takeWhile (fun c => !(c == '\n'))).reverse)

/-- JS `.replace(/\n\s*\n/g, '\n\n')` over the whole string.  At each `'\n'`
the regex greedily extends `\s*` through the following whitespace run and
backtracks to the last `'\n'` inside it; the whole match is replaced by
`"\n\n"` and scanning resumes after it.  `fuel` only bounds the recursion
depth (each step strictly shortens the list, so any `fuel ≥ l.length` yields
the replacement's value); it keeps the definition structurally recursive and
hence kernel-computable. -/
def fixParaGoF : Nat → List Char → List Char
  | 0, l => l
  | _ + 1, [] => []
  | fuel + 1, c :: cs =>
    if c == '\n' then
      match afterLastNewline (cs.takeWhile Char.isWhitespace) with
      | some tail => '\n' :: '\n' :: fixParaGoF fuel (tail ++ cs.dropWhile Char.isWhitespace)
      | none => c :: fixParaGoF fuel cs
    else c :: fixParaGoF fuel cs

/-- JS `.replace(/\n\s*\n/g, '\n\n')`. -/
def fixPara (l : List Char) : List Char := fixParaGoF l.length l

/-- Variant A's `cleanContent` pipeline: collapse whitespace, then the dead
"keep paragraph breaks" replace, then trim. -/
def cleanContent (textContent : List Char) : List Char :=
  trimL (fixPara (collapseWsGo false textContent))

/-- Variant B's `paragraphs.join('\n\n')`. -/
def formattedContent (paragraphs : List (List Char)) : List Char :=
  (paragraphs.intersperse ('\n' :: '\n' :: [])).foldr (· ++ ·) []

/-! ## Progress Estimator tick delay (word variant)

Embeds, from `startSpeech`'s `speakWithHighlight` closure (page.tsx, word
variant):

    const wordDuration = (wordsToSpeak[wordIndex - 1]?.length || 3) * 100 + 200;

`wordIndex` has already been incremented when this line runs, so it is ≥ 1 at
every call site, matching Nat subtraction. `x || 3` in JS yields 3 when the
length is 0 or the element is missing. -/
def wordDuration (wordsToSpeak : List String) (wordIndex : Nat) : Nat :=
  (match (wordsToSpeak.get? (wordIndex - 1)).map String.length with
   | none => 3
   | some 0 => 3
   | some (l + 1) => l + 1) * 100 + 200

/-- Modelled from the spec: the claimed per-unit duration under the
whole-utterance policy — a fixed 150 words-per-minute reading rate divided by
the Speech Engine's configured rate multiplier, in milliseconds per word. -/
def specWordDurationMs (rateMultiplier : ℚ) : ℚ :=
  60000 / 150 / rateMultiplier

/-! ## Highlight Publisher scroll decisions

Embeds the geometry predicates of `scrollToCurrentSentence` (sentence variant)
and `scrollToCurrentWord` (word variant).  Pixel coordinates are modelled as
integers. -/

/-- A DOMRect's vertical extent as returned by `getBoundingClientRect`. -/
structure Rect where
  top : Int
  bottom : Int
deriving DecidableEq

/-- `scrollToCurrentSentence`'s decision:

    const isAboveViewport = sentenceRect.top < 100;
    const isBelowViewport = sentenceRect.bottom > viewportHeight - 150;
    const isOutsideViewport = isAboveViewport || isBelowViewport;
-/
def isOutsideViewport (viewportHeight : Int) (sentenceRect : Rect) : Bool :=
  let isAboveViewport := sentenceRect.top < 100
  let isBelowViewport := sentenceRect.bottom > viewportHeight - 150
  isAboveViewport || isBelowViewport

/-- `scrollToCurrentWord`'s decision:

    if (wordRect.bottom > containerRect.bottom - 100) { ... scrollIntoView ... }
-/
def wordNeedsScroll (containerRect : Rect) (wordRect : Rect) : Bool :=
  wordRect.bottom > containerRect.bottom - 100

/-- Modelled from the spec: the claimed "comfortable viewport band" policy —
scroll exactly when the unit's top is within 100px of the top of the viewport
or its bottom is within 150px of the bottom of the viewport. -/
def specBandScroll (viewportHeight : Int) (r : Rect) : Bool :=
  r.top < 100 || r.bottom > viewportHeight - 150

/-! ## Speech Session Controller, sentence variant (unit-at-a-time policy)

State machine of the sentence-granularity page component: the React state
hooks (`isPlaying`, `isPaused`, `currentSentenceIndex`), the SpeechSynthesis
singleton's flags (`speaking`, `paused`), and the multiset of submitted
utterances whose terminal `end`/`error` event has not yet been delivered
(`pending`).  `speechSynthesis.cancel()` stops the audio immediately, but the
terminal event of an already-submitted utterance is still delivered
asynchronously afterwards, which is exactly the stale-callback situation the
spec discusses; `pending` therefore survives `cancel()`.

`gen` is ghost instrumentation, not a variable of the source: it counts the
`startSpeech` invocations so that an utterance can be tagged with the start
that created it.  No handler in the source reads it, which is the point of
the stale-callback analysis.  The texts of the sentences never influence the
observable state, so the model carries only their count `n`. -/

/-- One submitted utterance: the sentence index it speaks and the (ghost)
generation of the `startSpeech` that caused its submission. -/
structure Utt where
  tag : Nat
  gen : Nat
deriving DecidableEq

structure V1State where
  isPlaying : Bool
  isPaused : Bool
  currentIndex : Int
  gen : Nat
  engineSpeaking : Bool
  enginePaused : Bool
  pending : List Utt
deriving DecidableEq

/-- The pre-start state: nothing playing, no highlight, engine idle. -/
def v1Init : V1State :=
  { isPlaying := false, isPaused := false, currentIndex := -1, gen := 0,
    engineSpeaking := false, enginePaused := false, pending := [] }

/-- `speechSynthesis.cancel()`: audio stops, engine flags reset; terminal
events of already-submitted utterances are still delivered later. -/
def cancelEngine (s : V1State) : V1State :=
  { s with engineSpeaking := false, enginePaused := false }

/-- `speakSentence(sentenceIndex)` (page.tsx, sentence variant): past the end
of `sentences` it records completion (flags false, index -1); otherwise it
highlights the sentence and submits its utterance to the engine. -/
def speakSentence (n : Nat) (sentenceIndex : Nat) (s : V1State) : V1State :=
  if n ≤ sentenceIndex then
    { s with isPlaying := false, isPaused := false, currentIndex := -1 }
  else
    { s with currentIndex := (sentenceIndex : Int),
             engineSpeaking := true,
             pending := s.pending ++ [⟨sentenceIndex, s.gen⟩] }

/-- `startSpeech` (sentence variant): no-op when there are no sentences;
otherwise cancel the engine and start from sentence 0. -/
def startSpeech (n : Nat) (s : V1State) : V1State :=
  if n = 0 then s
  else
    speakSentence n 0
      { (cancelEngine s) with isPlaying := true, isPaused := false, gen := s.gen + 1 }

/-- `pauseSpeech`: guarded by the engine's flags, not the React state. -/
def pauseSpeech (s : V1State) : V1State :=
  if s.engineSpeaking && !s.enginePaused then
    { s with enginePaused := true, isPaused := true }
  else s

/-- `resumeSpeech`. -/
def resumeSpeech (s : V1State) : V1State :=
  if s.enginePaused then
    { s with enginePaused := false, isPaused := false }
  else s

/-- `stopSpeech` (sentence variant). -/
def stopSpeech (s : V1State) : V1State :=
  { (cancelEngine s) with isPlaying := false, isPaused := false, currentIndex := -1 }

/-- Delivery of `utterance.onend` for a submitted utterance `u`: the handler
is `speakSentence(sentenceIndex + 1)`, with no generation or state check. -/
def handleEnd (n : Nat) (u : Utt) (s : V1State) : V1State :=
  if u ∈ s.pending then
    speakSentence n (u.tag + 1)
      { s with pending := s.pending.erase u, engineSpeaking := false }
  else s

/-- Delivery of `utterance.onerror` for a submitted utterance `u`: the handler
resets the playback state and submits nothing. -/
def handleError (u : Utt) (s : V1State) : V1State :=
  if u ∈ s.pending then
    { s with pending := s.pending.erase u, engineSpeaking := false,
             isPlaying := false, isPaused := false, currentIndex := -1 }
  else s

/-- The deferred callbacks of the sentence variant. -/
inductive V1Ev where
  | endEv (u : Utt)
  | errEv (u : Utt)
deriving DecidableEq

def stepV1 (n : Nat) (s : V1State) : V1Ev → V1State
  | .endEv u => handleEnd n u s
  | .errEv u => handleError u s

/-- The `currentIndex` values observed after each delivered callback. -/
def traceV1 (n : Nat) (s : V1State) : List V1Ev → List Int
  | [] => []
  | e :: es => (stepV1 n s e).currentIndex :: traceV1 n (stepV1 n s e) es

/-! ## Speech Session Controller, word variant (whole-utterance policy)

State machine of the word-granularity page component.  One utterance carries
the whole article text; `onstart`/`onend`/`onerror` are its engine events.
The Progress Estimator is the `speakWithHighlight` closure rescheduled with
`setTimeout`: `timerPending` records whether such a timeout is currently
scheduled, `wordIndex` is the closure-local counter, and `capturedIsPlaying`
is the value of the `isPlaying` render constant captured when `startSpeech`
created the closure (the closure reads that captured value, not the live
state). -/

structure V2State where
  isPlaying : Bool
  isPaused : Bool
  currentWordIndex : Int
  engineSpeaking : Bool
  enginePaused : Bool
  timerPending : Bool
  wordIndex : Nat
  capturedIsPlaying : Bool
deriving DecidableEq

/-- The pre-start state of the word variant. -/
def v2Init : V2State :=
  { isPlaying := false, isPaused := false, currentWordIndex := -1,
    engineSpeaking := false, enginePaused := false, timerPending := false,
    wordIndex := 0, capturedIsPlaying := false }

/-- `startSpeech` (word variant): no-op when `words` is empty; otherwise
cancel the engine, submit the whole-article utterance, reset the closure
counter, and schedule the first `speakWithHighlight` timeout.  `isPlaying`,
`isPaused` and `currentWordIndex` are only changed later, by the utterance's
`onstart` event. -/
def startSpeechW (words : List String) (s : V2State) : V2State :=
  if words.isEmpty then s
  else
    { s with engineSpeaking := true, enginePaused := false,
             wordIndex := 0, capturedIsPlaying := s.isPlaying,
             timerPending := true }

/-- `utterance.onstart` (word variant). -/
def handleStartW (s : V2State) : V2State :=
  { s with isPlaying := true, isPaused := false, currentWordIndex := 0 }

/-- `utterance.onend` (word variant). -/
def handleEndW (s : V2State) : V2State :=
  { s with isPlaying := false, isPaused := false, currentWordIndex := -1,
           engineSpeaking := false }

/-- `utterance.onerror` (word variant). -/
def handleErrorW (s : V2State) : V2State :=
  { s with isPlaying := false, isPaused := false, currentWordIndex := -1,
           engineSpeaking := false }

/-- A scheduled `speakWithHighlight` timeout fires:

    if (wordIndex < wordsToSpeak.length && isPlaying) {
      setCurrentWordIndex(wordIndex);
      scrollToCurrentWord(wordIndex);
      wordIndex++;
      const wordDuration = ...;
      setTimeout(speakWithHighlight, wordDuration);
    }

`isPlaying` here is the captured render constant. -/
def tickW (wordsLen : Nat) (s : V2State) : V2State :=
  if s.timerPending then
    if s.wordIndex < wordsLen && s.capturedIsPlaying then
      { s with currentWordIndex := (s.wordIndex : Int),
               wordIndex := s.wordIndex + 1, timerPending := true }
    else { s with timerPending := false }
  else s

/-- `pauseSpeech` (word variant; same code as the sentence variant). -/
def pauseSpeechW (s : V2State) : V2State :=
  if s.engineSpeaking && !s.enginePaused then
    { s with enginePaused := true, isPaused := true }
  else s

/-- `resumeSpeech` (word variant). -/
def resumeSpeechW (s : V2State) : V2State :=
  if s.enginePaused then
    { s with enginePaused := false, isPaused := false }
  else s

/-- `stopSpeech` (word variant): cancels the engine and resets the playback
state; it contains no `clearTimeout`, so `timerPending` is untouched. -/
def stopSpeechW (s : V2State) : V2State :=
  { s with engineSpeaking := false, enginePaused := false,
           isPlaying := false, isPaused := false, currentWordIndex := -1 }

/-- The deferred callbacks of the word variant. -/
inductive V2Ev where
  | startEv
  | endEv
  | errEv
  | tickEv
deriving DecidableEq

def stepV2 (wordsLen : Nat) (s : V2State) : V2Ev → V2State
  | .startEv => handleStartW s
  | .endEv => handleEndW s
  | .errEv => handleErrorW s
  | .tickEv => tickW wordsLen s

/-- The `currentWordIndex` values observed after each delivered callback. -/
def traceV2 (wordsLen : Nat) (s : V2State) : List V2Ev → List Int
  | [] => []
  | e :: es => (stepV2 wordsLen s e).currentWordIndex :: traceV2 wordsLen (stepV2 wordsLen s e) es

/-- Every event of the list is delivered in a state where the session is
`Playing` (the scoping condition of the monotonicity property). -/
def whilePlayingW (wordsLen : Nat) (s : V2State) : List V2Ev → Bool
  | [] => true
  | e :: es => s.isPlaying && whilePlayingW wordsLen (stepV2 wordsLen s e) es

/-! ## Invariants and trace properties -/

/-- States of the sentence variant reachable within a single generation:
while playing, exactly the utterance of the highlighted sentence is awaiting
its terminal event; otherwise nothing is highlighted and nothing is in
flight. -/
def InvV1 (n : Nat) (s : V1State) : Prop :=
  (s.isPlaying = true →
     0 ≤ s.currentIndex ∧ s.currentIndex < (n : Int) ∧
     s.pending = [⟨s.currentIndex.toNat, s.gen⟩]) ∧
  (s.isPlaying = false → s.currentIndex = -1 ∧ s.pending = [])

instance (n : Nat) (s : V1State) : Decidable (InvV1 n s) := by
  unfold InvV1; infer_instance

/-- `okTraceB i js`: the index sequence `js`, starting from current value `i`,
is monotonically non-decreasing until a single reset to -1, after which it
stays -1. -/
def okTraceB : Int → List Int → Bool
  | _, [] => true
  | i, j :: r =>
    (decide (i ≤ j) && okTraceB j r) ||
    (decide (j = -1) && r.all (fun x => decide (x = -1)))

theorem stepV1_of_pending_nil (n : Nat) (s : V1State) (h : s.pending = [])
    (e : V1Ev) : stepV1 n s e = s := by
  cases e with
  | endEv u => simp [stepV1, handleEnd, h]
  | errEv u => simp [stepV1, handleError, h]

theorem traceV1_const_of_pending_nil (n : Nat) (evs : List V1Ev) (s : V1State)
    (h : s.pending = []) : ∀ x ∈ traceV1 n s evs, x = s.currentIndex := by
  induction evs generalizing s with
  | nil => simp [traceV1]
  | cons e es ih =>
    intro x hx
    rw [traceV1, stepV1_of_pending_nil n s h e] at hx
    rcases List.mem_cons.mp hx with h1 | h2
    · exact h1
    · exact ih s h x h2

theorem stepV1_inv (n : Nat) (s : V1State) (hInv : InvV1 n s) (e : V1Ev) :
    InvV1 n (stepV1 n s e) ∧
    (s.currentIndex ≤ (stepV1 n s e).currentIndex ∨
       ((stepV1 n s e).currentIndex = -1 ∧ (stepV1 n s e).pending = [])) := by
  obtain ⟨hP, hNP⟩ := hInv
  cases hp : s.isPlaying with
  | false =>
    obtain ⟨hidx, hpend⟩ := hNP hp
    rw [stepV1_of_pending_nil n s hpend e]
    exact ⟨⟨hP, hNP⟩, Or.inl le_rfl⟩
  | true =>
    obtain ⟨h0, hn, hpend⟩ := hP hp
    have hidx : ((s.currentIndex.toNat : Nat) : Int) = s.currentIndex :=
      Int.toNat_of_nonneg h0
    cases e with
    | endEv u =>
      by_cases hu : u ∈ s.pending
      · have hue : u = ⟨s.currentIndex.toNat, s.gen⟩ := by
          rw [hpend] at hu; exact List.mem_singleton.mp hu
        subst hue
        have herase : s.pending.erase ⟨s.currentIndex.toNat, s.gen⟩ = [] := by
          rw [hpend]; simp
        by_cases hend : n ≤ s.currentIndex.toNat + 1
        · constructor
          · constructor
            · intro hcontra
              simp [stepV1, handleEnd, hu, speakSentence, hend, herase] at hcontra
            · intro _
              simp [stepV1, handleEnd, hu, speakSentence, hend, herase]
          · right
            simp [stepV1, handleEnd, hu, speakSentence, hend, herase]
        · constructor
          · constructor
            · intro _
              refine ⟨?_, ?_, ?_⟩ <;>
                simp [stepV1, handleEnd, hu, speakSentence, hend, herase] <;> omega
            · intro hcontra
              simp [stepV1, handleEnd, hu, speakSentence, hend, herase, hp] at hcontra
          · left
            simp [stepV1, handleEnd, hu, speakSentence, hend, herase]
            omega
      · constructor
        · simpa [stepV1, handleEnd, hu] using And.intro hP hNP
        · left; simp [stepV1, handleEnd, hu]
    | errEv u =>
      by_cases hu : u ∈ s.pending
      · have hue : u = ⟨s.currentIndex.toNat, s.gen⟩ := by
          rw [hpend] at hu; exact List.mem_singleton.mp hu
        subst hue
        have herase : s.pending.erase ⟨s.currentIndex.toNat, s.gen⟩ = [] := by
          rw [hpend]; simp
        constructor
        · constructor
          · intro hcontra
            simp [stepV1, handleError, hu, herase] at hcontra
          · intro _
            simp [stepV1, handleError, hu, herase]
        · right
          simp [stepV1, handleError, hu, herase]
      · constructor
        · simpa [stepV1, handleError, hu] using And.intro hP hNP
        · left; simp [stepV1, handleError, hu]

theorem okTraceB_traceV1 (n : Nat) (evs : List V1Ev) (s : V1State)
    (h : InvV1 n s) : okTraceB s.currentIndex (traceV1 n s evs) = true := by
  induction evs generalizing s with
  | nil => rfl
  | cons e es ih =>
    obtain ⟨hInv2, hMono⟩ := stepV1_inv n s h e
    rw [traceV1, okTraceB]
    rcases hMono with hle | ⟨hneg, hpend⟩
    · have hrec := ih (stepV1 n s e) hInv2
      simp [hle, hrec]
    · have hall : (traceV1 n (stepV1 n s e) es).all (fun x => decide (x = -1)) = true := by
        rw [List.all_eq_true]
        intro x hx
        rw [decide_eq_true_eq, traceV1_const_of_pending_nil n es (stepV1 n s e) hpend x hx,
          hneg]
      simp [hneg, hall]

theorem stepV2_no_start_playing (wordsLen : Nat) (s : V2State) (e : V2Ev)
    (he : e ≠ V2Ev.startEv) (h : (stepV2 wordsLen s e).isPlaying = true) :
    e = V2Ev.tickEv := by
  cases e with
  | startEv => exact absurd rfl he
  | endEv => simp [stepV2, handleEndW] at h
  | errEv => simp [stepV2, handleErrorW] at h
  | tickEv => rfl

theorem okTraceB_traceV2 (wordsLen : Nat) (evs : List V2Ev) (s : V2State)
    (hIdx : s.currentWordIndex ≤ (s.wordIndex : Int))
    (hPlay : whilePlayingW wordsLen s evs = true)
    (hNoStart : ∀ e ∈ evs, e ≠ V2Ev.startEv) :
    okTraceB s.currentWordIndex (traceV2 wordsLen s evs) = true := by
  induction evs generalizing s with
  | nil => rfl
  | cons e es ih =>
    rw [whilePlayingW, Bool.and_eq_true] at hPlay
    obtain ⟨hsPlay, hRest⟩ := hPlay
    have hNoStartTail : ∀ e2 ∈ es, e2 ≠ V2Ev.startEv := fun e2 h2 =>
      hNoStart e2 (List.mem_cons_of_mem e h2)
    cases e with
    | startEv => exact absurd rfl (hNoStart _ (List.mem_cons_self _ _))
    | endEv =>
      cases es with
      | nil => simp [traceV2, stepV2, handleEndW, okTraceB]
      | cons e2 es2 =>
        rw [whilePlayingW, Bool.and_eq_true] at hRest
        simp [stepV2, handleEndW] at hRest
    | errEv =>
      cases es with
      | nil => simp [traceV2, stepV2, handleErrorW, okTraceB]
      | cons e2 es2 =>
        rw [whilePlayingW, Bool.and_eq_true] at hRest
        simp [stepV2, handleErrorW] at hRest
    | tickEv =>
      by_cases ht : s.timerPending
      · by_cases hg : s.wordIndex < wordsLen ∧ s.capturedIsPlaying = true
        · have hstep : stepV2 wordsLen s V2Ev.tickEv =
              { s with currentWordIndex := (s.wordIndex : Int),
                       wordIndex := s.wordIndex + 1, timerPending := true } := by
            simp [stepV2, tickW, ht, hg.1, hg.2]
          rw [hstep] at hRest
          rw [traceV2, hstep, okTraceB]
          rw [Bool.or_eq_true, Bool.and_eq_true]
          left
          exact ⟨decide_eq_true hIdx, ih _ (by simp) hRest hNoStartTail⟩
        · have hstep : stepV2 wordsLen s V2Ev.tickEv = { s with timerPending := false } := by
            rcases Decidable.not_and_iff_or_not.mp hg with hg1 | hg2
            · simp [stepV2, tickW, ht, hg1]
            · simp [stepV2, tickW, ht, Bool.eq_false_iff.mpr hg2]
          rw [hstep] at hRest
          rw [traceV2, hstep, okTraceB]
          rw [Bool.or_eq_true, Bool.and_eq_true]
          left
          exact ⟨decide_eq_true le_rfl, ih _ (by simpa using hIdx) hRest hNoStartTail⟩
      · have hstep : stepV2 wordsLen s V2Ev.tickEv = s := by
          simp [stepV2, tickW, ht]
        rw [hstep] at hRest
        rw [traceV2, hstep, okTraceB]
        rw [Bool.or_eq_true, Bool.and_eq_true]
        left
        exact ⟨decide_eq_true le_rfl, ih s hIdx hRest hNoStartTail⟩

/-! ### Whitespace lemmas for the extraction pipeline -/

theorem collapseWsGo_not_newline (l : List Char) :
    ∀ b : Bool, '\n' ∉ collapseWsGo b l := by
  induction l with
  | nil => intro b; simp [collapseWsGo]
  | cons c cs ih =>
    intro b
    by_cases hw : c.isWhitespace
    · cases b with
      | true =>
        simpa [collapseWsGo, hw] using ih true
      | false =>
        simp only [collapseWsGo, hw, if_true, if_false, Bool.false_eq_true,
          List.mem_cons]
        rintro (hsp | hmem)
        · exact absurd hsp (by decide)
        · exact ih true hmem
    · simp only [collapseWsGo, hw, if_false, List.mem_cons, Bool.false_eq_true]
      rintro (hce | hmem)
      · rw [← hce] at hw
        exact hw (by decide)
      · exact ih false hmem

theorem fixParaGoF_of_not_newline (fuel : Nat) (l : List Char)
    (h : '\n' ∉ l) : fixParaGoF fuel l = l := by
  induction fuel generalizing l with
  | zero => rfl
  | succ f ih =>
    cases l with
    | nil => rfl
    | cons c cs =>
      have hc : (c == '\n') = false := by
        rw [beq_eq_false_iff_ne]
        intro hce
        exact h (hce ▸ List.mem_cons_self c cs)
      rw [fixParaGoF, if_neg (by simp [hc])]
      rw [ih cs (fun hm => h (List.mem_cons_of_mem c hm))]

theorem mem_of_mem_trimL {c : Char} {l : List Char} (h : c ∈ trimL l) : c ∈ l := by
  unfold trimL at h
  rw [List.mem_reverse] at h
  have h2 := (List.dropWhile_sublist _).subset h
  rw [List.mem_reverse] at h2
  exact (List.dropWhile_sublist _).subset h2

theorem cleanContent_not_newline (textContent : List Char) :
    '\n' ∉ cleanContent textContent := by
  intro hmem
  unfold cleanContent fixPara at hmem
  have h1 := mem_of_mem_trimL hmem
  rw [fixParaGoF_of_not_newline _ _ (collapseWsGo_not_newline textContent false)] at h1
  exact collapseWsGo_not_newline textContent false h1

/-! ### Segmenter structure lemmas -/

/-- `AltParts b ps`: the parts alternate between pure punctuation runs and
punctuation-free text, the first one being punctuation exactly when `b`. -/
def AltParts : Bool → List (List Char) → Prop
  | _, [] => True
  | b, p :: ps => (∀ c ∈ p, isTermChar c = b) ∧ AltParts (!b) ps

theorem altParts_splitGo (cs : List Char) :
    ∀ (cur : List Char) (b : Bool), (∀ c ∈ cur, isTermChar c = b) →
      AltParts b (splitGo cs cur b) := by
  induction cs with
  | nil =>
    intro cur b hcur
    cases b with
    | true =>
      refine ⟨fun c hc => hcur c (List.mem_reverse.mp hc), ?_, trivial⟩
      intro c hc
      simp at hc
    | false =>
      exact ⟨fun c hc => hcur c (List.mem_reverse.mp hc), trivial⟩
  | cons c cs ih =>
    intro cur b hcur
    by_cases hc : isTermChar c = b
    · rw [splitGo, if_pos (by simp [hc])]
      refine ih (c :: cur) b ?_
      intro x hx
      rcases List.mem_cons.mp hx with hx1 | hx2
      · rw [hx1]; exact hc
      · exact hcur x hx2
    · rw [splitGo, if_neg (by simp [hc])]
      refine ⟨fun x hx => hcur x (List.mem_reverse.mp hx), ?_⟩
      have hnb : isTermChar c = !b := by
        cases hv : isTermChar c <;> cases b
        · exact absurd hv hc
        · rfl
        · rfl
        · exact absurd hv hc
      rw [← hnb]
      refine ih [c] (isTermChar c) ?_
      intro x hx
      rw [List.mem_singleton.mp hx]

theorem dropWhile_first_false (p : Char → Bool) (l : List Char) :
    ∀ c cs, l.dropWhile p = c :: cs → p c = false := by
  induction l with
  | nil => intro c cs h; simp [List.dropWhile] at h
  | cons a l ih =>
    intro c cs h
    rw [List.dropWhile_cons] at h
    by_cases hp : p a = true
    · rw [if_pos hp] at h
      exact ih c cs h
    · rw [if_neg hp] at h
      injection h with h1 h2
      rw [← h1]
      exact Bool.eq_false_iff.mpr hp

theorem trimL_has_non_ws {p : List Char} (h : trimL p ≠ []) :
    ∃ c ∈ trimL p, c.isWhitespace = false := by
  unfold trimL at *
  rcases hm : ((p.dropWhile Char.isWhitespace).reverse.dropWhile Char.isWhitespace) with
    _ | ⟨c, cs⟩
  · rw [hm] at h; simp at h
  · refine ⟨c, ?_, dropWhile_first_false _ _ c cs hm⟩
    rw [List.mem_reverse]
    exact List.mem_cons_self c cs

theorem buildGo_good (ps : List (List Char)) :
    ∀ (i : Nat) (acc : List (List Char)),
      AltParts (decide (i % 2 = 1)) ps →
      (∀ u ∈ acc, ∃ c ∈ u, isTermChar c = false ∧ c.isWhitespace = false) →
      ∀ u ∈ buildGo ps i acc, ∃ c ∈ u, isTermChar c = false ∧ c.isWhitespace = false := by
  induction ps with
  | nil => intro i acc _ hacc; simpa [buildGo] using hacc
  | cons p ps ih =>
    intro i acc hAlt hacc
    obtain ⟨hp, hAltTail⟩ := hAlt
    by_cases hi : i % 2 = 0
    · have hdec : decide (i % 2 = 1) = false := by simp [hi]
      have hdec2 : decide ((i + 1) % 2 = 1) = true := by simp [Nat.add_mod, hi]
      rw [hdec] at hp
      rw [buildGo, if_pos (by simp [hi])]
      refine ih (i + 1) _ (by rw [hdec2]; rw [hdec] at hAltTail; exact hAltTail) ?_
      by_cases he : (trimL p).isEmpty
      · rw [if_pos he]; exact hacc
      · rw [if_neg he]
        intro u hu
        rcases List.mem_cons.mp hu with hu1 | hu2
        · subst hu1
          obtain ⟨c, hcmem, hcws⟩ := trimL_has_non_ws (by
            intro hnil
            rw [hnil] at he
            exact he rfl)
          exact ⟨c, hcmem, hp c (mem_of_mem_trimL hcmem), hcws⟩
        · exact hacc u hu2
    · have h1 : i % 2 = 1 := Nat.mod_two_eq_zero_or_one i |>.resolve_left hi
      have hdec2 : decide ((i + 1) % 2 = 1) = false := by simp [Nat.add_mod, h1]
      rw [buildGo, if_neg (by simp [hi])]
      refine ih (i + 1) _ (by rw [hdec2]; simpa [h1] using hAltTail) ?_
      cases acc with
      | nil => intro u hu; simp [appendToHead] at hu
      | cons h tl =>
        intro u hu
        rw [appendToHead] at hu
        rcases List.mem_cons.mp hu with hu1 | hu2
        · subst hu1
          obtain ⟨c, hcmem, hcprop⟩ := hacc h (List.mem_cons_self h tl)
          exact ⟨c, List.mem_append_left _ hcmem, hcprop⟩
        · exact hacc u (List.mem_cons_of_mem h hu2)

theorem segmentSentences_good (content : List Char) :
    ∀ u ∈ segmentSentences content,
      (trimL u).isEmpty = false ∧
      ∃ c ∈ u, isTermChar c = false ∧ c.isWhitespace = false := by
  intro u hu
  unfold segmentSentences at hu
  rw [List.mem_filter] at hu
  obtain ⟨hmem, hfilter⟩ := hu
  rw [List.mem_reverse] at hmem
  refine ⟨by simpa using hfilter, ?_⟩
  refine buildGo_good (splitParts content) 0 [] ?_ (by intro u hu; simp at hu) u hmem
  exact altParts_splitGo content [] false (by intro c hc; simp at hc)

/-! ### Pause/resume well-formedness -/

/-- Consistency between the React flags and the engine flags of the sentence
variant: the engine is paused exactly when the session is, it is speaking
exactly when the session is playing, and a paused session is a playing one.
This holds in every state reachable by the user-facing operations without
stale deliveries. -/
def WfV1 (s : V1State) : Prop :=
  s.enginePaused = s.isPaused ∧ s.engineSpeaking = s.isPlaying ∧
    (s.isPaused = true → s.isPlaying = true)

/-- The same consistency for the word variant. -/
def WfV2 (t : V2State) : Prop :=
  t.enginePaused = t.isPaused ∧ t.engineSpeaking = t.isPlaying ∧
    (t.isPaused = true → t.isPlaying = true)

instance (s : V1State) : Decidable (WfV1 s) := by
  unfold WfV1; infer_instance

instance (t : V2State) : Decidable (WfV2 t) := by
  unfold WfV2; infer_instance

theorem pauseResume_ok_V1 (s : V1State) (hs : WfV1 s) :
    (pauseSpeech s).currentIndex = s.currentIndex ∧
    (resumeSpeech s).currentIndex = s.currentIndex ∧
    (s.isPlaying = true → s.isPaused = false → resumeSpeech (pauseSpeech s) = s) ∧
    (¬(s.isPlaying = true ∧ s.isPaused = false) → pauseSpeech s = s) ∧
    (¬(s.isPlaying = true ∧ s.isPaused = true) → resumeSpeech s = s) := by
  obtain ⟨ip, ips, ci, g, es, ep, pd⟩ := s
  obtain ⟨h1, h2, h3⟩ := hs
  cases ip <;> cases ips <;> cases es <;> cases ep <;>
    simp_all [pauseSpeech, resumeSpeech]

theorem pauseResume_ok_V2 (t : V2State) (ht : WfV2 t) :
    (pauseSpeechW t).currentWordIndex = t.currentWordIndex ∧
    (resumeSpeechW t).currentWordIndex = t.currentWordIndex ∧
    (t.isPlaying = true → t.isPaused = false → resumeSpeechW (pauseSpeechW t) = t) ∧
    (¬(t.isPlaying = true ∧ t.isPaused = false) → pauseSpeechW t = t) ∧
    (¬(t.isPlaying = true ∧ t.isPaused = true) → resumeSpeechW t = t) := by
  obtain ⟨ip, ips, ci, es, ep, tp, wi, cap⟩ := t
  obtain ⟨h1, h2, h3⟩ := ht
  cases ip <;> cases ips <;> cases es <;> cases ep <;>
    simp_all [pauseSpeechW, resumeSpeechW]

/-! ## Claims -/

/-- Claim C1: the spec requires every deferred callback to be checked against
the live generation and discarded on mismatch, so that after two successive
`start()` calls a callback of the first generation produces no observable
change.  The code has no such check: after `start(); start()` on a 3-sentence
article, the in-flight utterance of the superseded first start (tagged with
ghost generation 1, while the live generation is 2) is still pending, and
delivering its `onend` moves `currentIndex` from 0 to 1 and submits a fresh
utterance (tag 1, generation 2) on behalf of the dead session. -/
theorem stale_end_callback_from_superseded_start_mutates_state :
    (startSpeech 3 (startSpeech 3 v1Init)).gen = 2 ∧
    (startSpeech 3 (startSpeech 3 v1Init)).currentIndex = 0 ∧
    (⟨0, 1⟩ : Utt) ∈ (startSpeech 3 (startSpeech 3 v1Init)).pending ∧
    (1 : Nat) ≠ (startSpeech 3 (startSpeech 3 v1Init)).gen ∧
    (handleEnd 3 ⟨0, 1⟩ (startSpeech 3 (startSpeech 3 v1Init))).currentIndex = 1 ∧
    (⟨1, 2⟩ : Utt) ∈ (handleEnd 3 ⟨0, 1⟩ (startSpeech 3 (startSpeech 3 v1Init))).pending := by
  decide

/-- Claim C2: within a single generation, for any sequence of engine
completion callbacks (sentence variant) and of estimator ticks and terminal
engine events delivered while the session is playing (word variant), the
observed `currentIndex` sequence is monotonically non-decreasing until the
single reset to -1 on completion or error. -/
theorem currentIndex_nondecreasing_within_generation
    (n : Nat) (s1 : V1State) (evs1 : List V1Ev) (h1 : InvV1 n s1)
    (wordsLen : Nat) (s2 : V2State) (evs2 : List V2Ev)
    (h2 : s2.currentWordIndex ≤ (s2.wordIndex : Int))
    (h3 : whilePlayingW wordsLen s2 evs2 = true)
    (h4 : ∀ e ∈ evs2, e ≠ V2Ev.startEv) :
    okTraceB s1.currentIndex (traceV1 n s1 evs1) = true ∧
    okTraceB s2.currentWordIndex (traceV2 wordsLen s2 evs2) = true :=
  ⟨okTraceB_traceV1 n evs1 s1 h1, okTraceB_traceV2 wordsLen evs2 s2 h2 h3 h4⟩

/-- Witness for C2 at a concrete playing state of each variant. -/
theorem currentIndex_nondecreasing_witness :
    InvV1 2 (⟨true, false, 0, 1, true, false, [⟨0, 1⟩]⟩ : V1State) ∧
    (okTraceB (0 : Int)
        (traceV1 2 (⟨true, false, 0, 1, true, false, [⟨0, 1⟩]⟩ : V1State)
          [V1Ev.endEv ⟨0, 1⟩, V1Ev.endEv ⟨1, 1⟩]) = true ∧
      okTraceB (0 : Int)
        (traceV2 3 (⟨true, false, 0, true, false, true, 1, true⟩ : V2State)
          [V2Ev.tickEv, V2Ev.tickEv, V2Ev.endEv]) = true) :=
  ⟨by decide,
    currentIndex_nondecreasing_within_generation 2
      (⟨true, false, 0, 1, true, false, [⟨0, 1⟩]⟩ : V1State)
      [V1Ev.endEv ⟨0, 1⟩, V1Ev.endEv ⟨1, 1⟩] (by decide) 3
      (⟨true, false, 0, true, false, true, 1, true⟩ : V2State)
      [V2Ev.tickEv, V2Ev.tickEv, V2Ev.endEv] (by decide) (by decide) (by decide)⟩

/-- Claim C3 counterexample: the estimator's per-unit delay is not the claimed
fixed 150 WPM divided by the engine rate.  The code's delay differs between
units of the same utterance (400ms for "hi", 700ms for "hello") although the
engine rate is fixed at 0.9, and neither value equals 60000/150/0.9 ms. -/
theorem wordDuration_not_wpm_over_rate :
    wordDuration ["hi", "hello"] 1 = 400 ∧
    wordDuration ["hi", "hello"] 2 = 700 ∧
    wordDuration ["hi", "hello"] 1 ≠ wordDuration ["hi", "hello"] 2 ∧
    specWordDurationMs (9 / 10) ≠ (400 : ℚ) ∧
    specWordDurationMs (9 / 10) ≠ (700 : ℚ) := by
  refine ⟨by decide, by decide, by decide, ?_, ?_⟩ <;>
    (unfold specWordDurationMs; norm_num)

/-- Claim C3 amended: the per-unit delay the estimator schedules is 100 ms per
character of the unit plus 200 ms, with a 3-character fallback when the unit
is missing or empty (hence 500 ms); it involves neither an assumed WPM nor
the engine's rate multiplier. -/
theorem wordDuration_char_count_formula :
    (∀ (ws : List String) (i : Nat) (w : String), ws.get? (i - 1) = some w →
       w.length ≠ 0 → wordDuration ws i = 100 * w.length + 200) ∧
    (∀ (ws : List String) (i : Nat), ws.get? (i - 1) = none → wordDuration ws i = 500) ∧
    (∀ (ws : List String) (i : Nat) (w : String), ws.get? (i - 1) = some w →
       w.length = 0 → wordDuration ws i = 500) := by
  refine ⟨?_, ?_, ?_⟩
  · intro ws i w hw hlen
    unfold wordDuration
    rw [hw]
    cases hl : w.length with
    | zero => exact absurd hl hlen
    | succ l =>
      rw [Option.map_some', hl]
      show (l + 1) * 100 + 200 = 100 * (l + 1) + 200
      ring
  · intro ws i hw
    unfold wordDuration
    rw [hw]
    rfl
  · intro ws i w hw hlen
    unfold wordDuration
    rw [hw, Option.map_some', hlen]
    rfl

/-- Witness for the amended C3 at a concrete word list. -/
theorem wordDuration_char_count_formula_witness :
    (["hi"].get? 0 = some ("hi" : String) ∧ ("hi" : String).length ≠ 0) ∧
    wordDuration ["hi"] 1 = 100 * ("hi" : String).length + 200 :=
  ⟨⟨rfl, by decide⟩, wordDuration_char_count_formula.1 ["hi"] 1 "hi" rfl (by decide)⟩

/-- Claim C4: the spec says the extraction endpoint's `content` separates
paragraphs with a double line break.  Variant A's pipeline first collapses
every whitespace run — newlines included — to a single space, so its output
can never contain a newline at all (the subsequent "keep paragraph breaks"
replace is dead code, contradicting its own comment); concretely, a
two-paragraph extraction comes back as one paragraph. -/
theorem cleanContent_never_contains_newline :
    (∀ textContent : List Char, '\n' ∉ cleanContent textContent) ∧
    cleanContent ("Para one.\n\nPara two.".data) = ("Para one. Para two.".data) :=
  ⟨cleanContent_not_newline, by decide⟩

/-- Claim C5 counterexample: punctuation preceding any sentence text is
dropped.  On input `"!Hi."` the leading `'!'` appears in no produced unit,
contradicting "no punctuation character present in the input is dropped". -/
theorem leading_punctuation_dropped :
    '!' ∈ ("!Hi.".data) ∧
    segmentSentences ("!Hi.".data) = [("Hi.".data)] ∧
    '!' ∉ ("Hi.".data) := by
  decide

/-- Claim C5 amended: every produced unit is nonempty after trimming and
contains a character that is neither terminal punctuation nor whitespace (so
no unit is solely punctuation); punctuation runs preceded by sentence text
are re-attached to it, as on the reference input, but a punctuation run with
no preceding sentence unit is dropped. -/
theorem segmentSentences_punctuation_attached :
    (∀ (content : List Char), ∀ u ∈ segmentSentences content,
       (trimL u).isEmpty = false ∧
       ∃ c ∈ u, isTermChar c = false ∧ c.isWhitespace = false) ∧
    segmentSentences ("Hello world! How are you? Fine.".data) =
      [("Hello world!".data), ("How are you?".data), ("Fine.".data)] :=
  ⟨fun content => segmentSentences_good content, by decide⟩

/-- Witness for the amended C5 at the reference input. -/
theorem segmentSentences_punctuation_attached_witness :
    (("Hello world!".data) ∈ segmentSentences ("Hello world! How are you? Fine.".data)) ∧
    ((trimL ("Hello world!".data)).isEmpty = false ∧
      ∃ c ∈ ("Hello world!".data), isTermChar c = false ∧ c.isWhitespace = false) :=
  ⟨by decide,
    segmentSentences_punctuation_attached.1 ("Hello world! How are you? Fine.".data)
      ("Hello world!".data) (by decide)⟩

/-- Claim C6: an engine-reported error for an in-flight utterance transitions
the session to Stopped with `currentIndex = -1`; the handler removes the
utterance without retrying and submits nothing new (sentence variant: the
pending multiset only shrinks by the erased utterance; word variant: the
flags reset and no timer or utterance is added). -/
theorem engine_error_transitions_to_stopped (s : V1State) (u : Utt)
    (h : u ∈ s.pending) (t : V2State) :
    (handleError u s).isPlaying = false ∧
    (handleError u s).isPaused = false ∧
    (handleError u s).currentIndex = -1 ∧
    (handleError u s).pending = s.pending.erase u ∧
    (handleError u s).engineSpeaking = false ∧
    (handleErrorW t).isPlaying = false ∧
    (handleErrorW t).isPaused = false ∧
    (handleErrorW t).currentWordIndex = -1 ∧
    (handleErrorW t).engineSpeaking = false ∧
    (handleErrorW t).timerPending = t.timerPending := by
  simp [handleError, handleErrorW, h]

/-- Witness for C6 at a concrete playing state. -/
theorem engine_error_transitions_to_stopped_witness :
    ((⟨0, 1⟩ : Utt) ∈ (⟨true, false, 0, 1, true, false, [⟨0, 1⟩]⟩ : V1State).pending) ∧
    (handleError ⟨0, 1⟩ (⟨true, false, 0, 1, true, false, [⟨0, 1⟩]⟩ : V1State)).currentIndex = -1 :=
  ⟨by decide,
    (engine_error_transitions_to_stopped
      (⟨true, false, 0, 1, true, false, [⟨0, 1⟩]⟩ : V1State) ⟨0, 1⟩ (by decide) v2Init).2.2.1⟩

/-- Claim C7 counterexample: `stopSpeech` contains no `clearTimeout`, so the
estimator timeout scheduled by the word variant's `startSpeech` is still
pending after `stop()` returns, although the stop itself did reset the
playback state. -/
theorem stop_leaves_estimator_timer_pending :
    (startSpeechW ["Hello", "world"] v2Init).timerPending = true ∧
    (stopSpeechW (startSpeechW ["Hello", "world"] v2Init)).timerPending = true ∧
    (stopSpeechW (startSpeechW ["Hello", "world"] v2Init)).isPlaying = false ∧
    (stopSpeechW (startSpeechW ["Hello", "world"] v2Init)).currentWordIndex = -1 := by
  decide

/-- Claim C7 amended: `stop()` is valid from every state and idempotent — it
cancels the Speech Engine and sets the session Stopped with
`currentIndex = -1` before returning, and a second `stop()` changes nothing —
but it does not cancel pending Progress Estimator timers: the scheduled
timeout survives `stop()` unchanged. -/
theorem stop_resets_state_and_is_idempotent (s : V1State) (t : V2State) :
    (stopSpeech s).isPlaying = false ∧
    (stopSpeech s).isPaused = false ∧
    (stopSpeech s).currentIndex = -1 ∧
    (stopSpeech s).engineSpeaking = false ∧
    (stopSpeech s).enginePaused = false ∧
    stopSpeech (stopSpeech s) = stopSpeech s ∧
    (stopSpeechW t).isPlaying = false ∧
    (stopSpeechW t).isPaused = false ∧
    (stopSpeechW t).currentWordIndex = -1 ∧
    (stopSpeechW t).engineSpeaking = false ∧
    (stopSpeechW t).enginePaused = false ∧
    stopSpeechW (stopSpeechW t) = stopSpeechW t ∧
    (stopSpeechW t).timerPending = t.timerPending :=
  ⟨rfl, rfl, rfl, rfl, rfl, rfl, rfl, rfl, rfl, rfl, rfl, rfl, rfl⟩

/-- Claim C8: starting on an empty unit sequence is a silent no-op in both
variants — the state record (so in particular `state` and `currentIndex`) is
unchanged and nothing is submitted to the engine or scheduled. -/
theorem start_on_empty_units_is_noop (s : V1State) (t : V2State) :
    startSpeech 0 s = s ∧ startSpeechW [] t = t :=
  ⟨rfl, rfl⟩

/-- Claim C9: in a consistent state, `pause()` then `resume()` on a playing
session is the identity (state and `currentIndex` both restored), `pause()`
from a non-playing state and `resume()` from a non-paused state are no-ops,
and neither operation ever changes the current index (both variants). -/
theorem pause_resume_roundtrip (s : V1State) (hs : WfV1 s) (t : V2State) (ht : WfV2 t) :
    ((pauseSpeech s).currentIndex = s.currentIndex ∧
     (resumeSpeech s).currentIndex = s.currentIndex ∧
     (s.isPlaying = true → s.isPaused = false → resumeSpeech (pauseSpeech s) = s) ∧
     (¬(s.isPlaying = true ∧ s.isPaused = false) → pauseSpeech s = s) ∧
     (¬(s.isPlaying = true ∧ s.isPaused = true) → resumeSpeech s = s)) ∧
    ((pauseSpeechW t).currentWordIndex = t.currentWordIndex ∧
     (resumeSpeechW t).currentWordIndex = t.currentWordIndex ∧
     (t.isPlaying = true → t.isPaused = false → resumeSpeechW (pauseSpeechW t) = t) ∧
     (¬(t.isPlaying = true ∧ t.isPaused = false) → pauseSpeechW t = t) ∧
     (¬(t.isPlaying = true ∧ t.isPaused = true) → resumeSpeechW t = t)) :=
  ⟨pauseResume_ok_V1 s hs, pauseResume_ok_V2 t ht⟩

/-- Witness for C9 at a concrete playing state of each variant. -/
theorem pause_resume_roundtrip_witness :
    WfV1 (⟨true, false, 5, 1, true, false, [⟨5, 1⟩]⟩ : V1State) ∧
    WfV2 (⟨true, false, 2, true, false, true, 3, true⟩ : V2State) ∧
    resumeSpeech (pauseSpeech (⟨true, false, 5, 1, true, false, [⟨5, 1⟩]⟩ : V1State)) =
      (⟨true, false, 5, 1, true, false, [⟨5, 1⟩]⟩ : V1State) ∧
    resumeSpeechW (pauseSpeechW (⟨true, false, 2, true, false, true, 3, true⟩ : V2State)) =
      (⟨true, false, 2, true, false, true, 3, true⟩ : V2State) :=
  ⟨by decide, by decide,
    (pause_resume_roundtrip (⟨true, false, 5, 1, true, false, [⟨5, 1⟩]⟩ : V1State) (by decide)
      (⟨true, false, 2, true, false, true, 3, true⟩ : V2State) (by decide)).1.2.2.1 rfl rfl,
    (pause_resume_roundtrip (⟨true, false, 5, 1, true, false, [⟨5, 1⟩]⟩ : V1State) (by decide)
      (⟨true, false, 2, true, false, true, 3, true⟩ : V2State) (by decide)).2.2.2.1 rfl rfl⟩

/-- Claim C10 counterexample: the word variant's scroll decision is not the
claimed viewport band.  A word whose rectangle sits 50px from the top of the
viewport is inside the claimed band's trigger zone (top < 100), and the
sentence variant would scroll, but `scrollToCurrentWord` does not: it only
compares the word's bottom against the article container's bottom minus
100px. -/
theorem word_scroll_ignores_viewport_band :
    specBandScroll 800 ⟨50, 70⟩ = true ∧
    isOutsideViewport 800 ⟨50, 70⟩ = true ∧
    wordNeedsScroll ⟨0, 500⟩ ⟨50, 70⟩ = false := by
  decide

/-- Claim C10 amended: the sentence variant scrolls exactly when the unit's
top is within 100px of the viewport top or its bottom within 150px of the
viewport bottom (the claimed band); the word variant scrolls exactly when the
word's bottom is within 100px of the article container's bottom, with no
top-edge condition (its decision ignores the word's top coordinate and the
viewport height). -/
theorem scroll_decision_characterization :
    (∀ (vh : Int) (r : Rect),
       isOutsideViewport vh r = true ↔ (r.top < 100 ∨ r.bottom > vh - 150)) ∧
    (∀ (vh : Int) (r : Rect), isOutsideViewport vh r = specBandScroll vh r) ∧
    (∀ (c w : Rect), wordNeedsScroll c w = true ↔ w.bottom > c.bottom - 100) ∧
    (∀ (c : Rect) (y y2 b : Int), wordNeedsScroll c ⟨y, b⟩ = wordNeedsScroll c ⟨y2, b⟩) := by
  refine ⟨?_, ?_, ?_, ?_⟩
  · intro vh r
    simp [isOutsideViewport]
  · intro vh r
    simp [isOutsideViewport, specBandScroll]
  · intro c w
    simp [wordNeedsScroll]
  · intro c y y2 b
    simp [wordNeedsScroll]

end ReadArticle
